import Mathlib

/-!
# Local filesystem storage adapter (package fs, storage.go)

A shallow embedding of the storage operations of storage.go: delete, listDir,
metadata, read, stat, write, copy, move and checkLink.

The Go Storage struct reaches the operating system through function-valued
fields (osOpen, osCreate, osStat, osRename, osRemove, ioutilReadDir, ioCopyN,
ioCopyBuffer).  The embedding keeps them as fields of a structure, so every
operation is a function of the storage value and of an explicit world state
that is threaded through the calls.  A Go result pair (value, err) becomes an
Except value paired with the world after the call.
-/

namespace Fs

/-! ## Data model -/

/-- A byte.  No operation of the adapter inspects byte values. -/
abbrev Byte := Nat

/-- Errors surfaced by the operating system and the io package.  The value
outOfFuel is not a Go error: a loop of the model returns it when its iteration
bound is reached before the loop ends. -/
inductive Err where
  | notExist
  | exist
  | isDir
  | notDir
  | invalid
  | eof
  | closed
  | shortWrite
  | other (code : Nat)
  | outOfFuel
  deriving DecidableEq, Repr

/-- Constant os.ModeDir. -/
def ModeDir : Nat := 2 ^ 31
/-- Constant os.ModeSymlink. -/
def ModeSymlink : Nat := 2 ^ 27
/-- Constant os.ModeDevice. -/
def ModeDevice : Nat := 2 ^ 26
/-- Constant os.ModeNamedPipe. -/
def ModeNamedPipe : Nat := 2 ^ 25
/-- Constant os.ModeSocket. -/
def ModeSocket : Nat := 2 ^ 24
/-- Constant os.ModeCharDevice. -/
def ModeCharDevice : Nat := 2 ^ 21
/-- Constant os.ModeIrregular. -/
def ModeIrregular : Nat := 2 ^ 19
/-- Constant os.ModeType, the mask of all file type bits. -/
def ModeType : Nat :=
  ModeDir ||| ModeSymlink ||| ModeNamedPipe ||| ModeSocket ||| ModeDevice |||
    ModeCharDevice ||| ModeIrregular

/-- Method FileMode.IsRegular: no type bit is set. -/
def IsRegular (m : Nat) : Bool := m &&& ModeType == 0

/-- The os.FileInfo interface: the results of its methods. -/
structure FileInfo where
  Name : String
  Size : Int
  Mode : Nat
  ModTime : Int
  IsDir : Bool
  deriving DecidableEq, Repr

/-- The types.ObjectType values; unset is the zero value of a fresh Object. -/
inductive ObjectType where
  | unset
  | file
  | dir
  | stream
  | invalid
  deriving DecidableEq, Repr

/-- The types.Object record; field Typ is the Go field Type (a reserved word
here).  ContentType is the one entry of ObjectMeta that
the adapter sets. -/
structure Object where
  ID : String
  Name : String
  Typ : ObjectType
  Size : Int
  UpdatedAt : Int
  ContentType : Option String
  deriving DecidableEq, Repr

/-- An os.File value: standard input, standard output or an open descriptor. -/
inductive File where
  | stdin
  | stdout
  | fd (n : Nat)
  deriving DecidableEq, Repr

/-- An io.Reader value as the adapter builds it: an in-memory byte source, a
file, a size-limited reader (iowrap.LimitReadCloser, io.LimitedReader) with
the count of bytes it may still deliver, and a callback reader
(iowrap.CallbackReadCloser) with the byte counts reported to its callback so
far. -/
inductive Reader where
  | bytes (rest : List Byte)
  | file (f : File)
  | limit (r : Reader) (n : Int)
  | callback (r : Reader) (calls : List Nat)
  deriving DecidableEq, Repr

/-- Pure host functions the adapter calls: the native path separator,
filepath.Join, path.Join, mime.DetectFilePath and the platform constant
StreamModeType. -/
structure Host where
  Separator : Char
  filepathJoin : String → String → String
  pathJoin : String → String → String
  mimeDetect : String → String
  StreamModeType : Nat

/-- Function filepath.ToSlash: replace every native separator by a slash. -/
def Host.ToSlash (h : Host) (p : String) : String :=
  if h.Separator = '/' then p
  else String.mk (p.data.map (fun c => if c = h.Separator then '/' else c))

/-- Calls into package os and path/filepath that storage.go makes directly
rather than through a field of Storage. -/
structure OS (σ : Type) where
  Close : File → σ → σ
  Seek : File → Int → σ → Except Err Int × σ
  EvalSymlinks : String → σ → Except Err String × σ
  Stat : String → σ → Except Err FileInfo × σ

/-- The Storage struct: the work directory, the two path helpers of the
package (getAbsPath and createDir) and the injected system functions. -/
structure Storage (σ : Type) where
  workDir : String
  getAbsPath : String → String
  createDir : String → σ → Except Err Unit × σ
  osOpen : String → σ → Except Err File × σ
  osCreate : String → σ → Except Err File × σ
  osStat : String → σ → Except Err FileInfo × σ
  osRemove : String → σ → Except Err Unit × σ
  osRename : String → String → σ → Except Err Unit × σ
  ioutilReadDir : String → σ → Except Err (List FileInfo) × σ
  ioCopyN : File → Reader → Int → σ → (Int × Option Err) × σ
  ioCopyBuffer : File → Reader → Nat → σ → (Int × Option Err) × σ

/-- Options of listDir.  A callback is a Go closure: it receives the object and
may change the world. -/
structure PairStorageListDir (σ : Type) where
  EnableLinkFollow : Bool
  HasDirFunc : Bool
  DirFunc : Object → σ → σ
  HasFileFunc : Bool
  FileFunc : Object → σ → σ

/-- Options of read. -/
structure PairStorageRead where
  HasOffset : Bool
  Offset : Int
  HasSize : Bool
  Size : Int
  HasReadCallbackFunc : Bool
  deriving DecidableEq, Repr

/-- Options of write. -/
structure PairStorageWrite where
  HasSize : Bool
  Size : Int
  HasReadCallbackFunc : Bool
  deriving DecidableEq, Repr

/-! ## The operations of storage.go -/

variable {σ : Type}

/-- Function delete. -/
def delete (s : Storage σ) (path : String) (w : σ) : Except Err Unit × σ :=
  let rp := s.getAbsPath path
  match s.osRemove rp w with
  | (.error err, w) => (.error err, w)
  | (.ok _, w) => (.ok (), w)

/-- Function checkLink. -/
def checkLink (h : Host) (os : OS σ) (v : FileInfo) (dir : String) (w : σ) :
    Except Err FileInfo × σ :=
  -- if v is not link, return directly
  if v.Mode &&& ModeSymlink == 0 then (.ok v, w)
  else
    -- otherwise, follow the link to get the target
    match os.EvalSymlinks (h.filepathJoin dir v.Name) w with
    | (.error err, w) => (.error err, w)
    | (.ok tarPath, w) => os.Stat tarPath w

/-- The object listDir builds for entry v with resolved target, before it is
classified. -/
def listDirObject (h : Host) (rp dir : String) (v target : FileInfo) : Object :=
  { ID := h.filepathJoin rp v.Name
    Name := h.pathJoin dir v.Name
    Typ := ObjectType.unset
    Size := target.Size
    UpdatedAt := target.ModTime
    ContentType := none }

/-- The object listDir hands to DirFunc. -/
def listDirDirObject (h : Host) (rp dir : String) (v target : FileInfo) : Object :=
  { listDirObject h rp dir v target with Typ := ObjectType.dir }

/-- The object listDir hands to FileFunc: the content type is set when
mime.DetectFilePath(target.Name()) is not empty. -/
def listDirFileObject (h : Host) (rp dir : String) (v target : FileInfo) : Object :=
  let o := listDirObject h rp dir v target
  let o :=
    if h.mimeDetect target.Name != "" then
      { o with ContentType := some (h.mimeDetect target.Name) }
    else o
  { o with Typ := ObjectType.file }

/-- The range loop of listDir over the entries of the directory. -/
def listDirLoop (h : Host) (os : OS σ) (rp dir : String) (opt : PairStorageListDir σ) :
    List FileInfo → σ → Except Err Unit × σ
  | [], w => (.ok (), w)
  | v :: rest, w =>
    -- if v is a link, and client not follow link, skip it
    if (v.Mode &&& ModeSymlink != 0) && !opt.EnableLinkFollow then
      listDirLoop h os rp dir opt rest w
    else
      match checkLink h os v rp w with
      | (.error err, w) => (.error err, w)
      | (.ok target, w) =>
        if target.IsDir then
          let o := listDirDirObject h rp dir v target
          let w := if opt.HasDirFunc then opt.DirFunc o w else w
          listDirLoop h os rp dir opt rest w
        else
          let o := listDirFileObject h rp dir v target
          let w := if opt.HasFileFunc then opt.FileFunc o w else w
          listDirLoop h os rp dir opt rest w

/-- Function listDir. -/
def listDir (h : Host) (os : OS σ) (s : Storage σ) (dir : String)
    (opt : PairStorageListDir σ) (w : σ) : Except Err Unit × σ :=
  -- Always keep service original name as rp.
  let rp := s.getAbsPath dir
  -- Then convert the dir to slash separator.
  let dir := h.ToSlash dir
  match s.ioutilReadDir rp w with
  | (.error err, w) => (.error err, w)
  | (.ok fi, w) => listDirLoop h os rp dir opt fi w

/-- Function metadata: the work directory. -/
def metadata (s : Storage σ) : String := s.workDir

/-- Function read. -/
def read (os : OS σ) (s : Storage σ) (path : String) (opt : PairStorageRead) (w : σ) :
    Except Err Reader × σ :=
  -- If path is "-", return stdin directly.
  if path = "-" then
    let f := File.stdin
    if opt.HasSize then (.ok (Reader.limit (Reader.file f) opt.Size), w)
    else (.ok (Reader.file f), w)
  else
    let rp := s.getAbsPath path
    match s.osOpen rp w with
    | (.error err, w) => (.error err, w)
    | (.ok f, w) =>
      let seek : Except Err Unit × σ :=
        if opt.HasOffset then
          match os.Seek f opt.Offset w with
          | (.error err, w) => (.error err, w)
          | (.ok _, w) => (.ok (), w)
        else (.ok (), w)
      match seek with
      | (.error err, w) => (.error err, w)
      | (.ok _, w) =>
        let rc := Reader.file f
        let rc := if opt.HasSize then Reader.limit rc opt.Size else rc
        let rc := if opt.HasReadCallbackFunc then Reader.callback rc [] else rc
        (.ok rc, w)

/-- Function stat. -/
def stat (h : Host) (s : Storage σ) (path : String) (w : σ) : Except Err Object × σ :=
  if path = "-" then
    (.ok { ID := "-", Name := "-", Typ := ObjectType.stream, Size := 0, UpdatedAt := 0,
           ContentType := none }, w)
  else
    let rp := s.getAbsPath path
    match s.osStat rp w with
    | (.error err, w) => (.error err, w)
    | (.ok fi, w) =>
      let o : Object :=
        { ID := rp, Name := path, Typ := ObjectType.unset, Size := fi.Size,
          UpdatedAt := fi.ModTime, ContentType := none }
      if fi.IsDir then
        (.ok { o with Typ := ObjectType.dir }, w)
      else if IsRegular fi.Mode then
        let o :=
          if h.mimeDetect path != "" then { o with ContentType := some (h.mimeDetect path) }
          else o
        (.ok { o with Typ := ObjectType.file }, w)
      else if fi.Mode &&& h.StreamModeType != 0 then
        (.ok { o with Typ := ObjectType.stream }, w)
      else
        (.ok { o with Typ := ObjectType.invalid }, w)

/-- Function write. -/
def write (s : Storage σ) (path : String) (r : Reader) (opt : PairStorageWrite) (w : σ) :
    Except Err Unit × σ :=
  let dest : Except Err File × σ :=
    -- If path is "-", use stdout directly.
    if path = "-" then (.ok File.stdout, w)
    else
      -- Create dir for path.
      match s.createDir path w with
      | (.error err, w) => (.error err, w)
      | (.ok _, w) =>
        let rp := s.getAbsPath path
        s.osCreate rp w
  match dest with
  | (.error err, w) => (.error err, w)
  | (.ok f, w) =>
    let r := if opt.HasReadCallbackFunc then Reader.callback r [] else r
    let copied :=
      if opt.HasSize then s.ioCopyN f r opt.Size w
      else s.ioCopyBuffer f r (1024 * 1024) w
    match copied with
    | ((_, some err), w) => (.error err, w)
    | ((_, none), w) => (.ok (), w)

/-- Function copy.  The two deferred Close calls run on every exit that
follows their registration, last registered first. -/
def copy (os : OS σ) (s : Storage σ) (src dst : String) (w : σ) : Except Err Unit × σ :=
  let rs := s.getAbsPath src
  let rd := s.getAbsPath dst
  -- Create dir for dst.
  match s.createDir dst w with
  | (.error err, w) => (.error err, w)
  | (.ok _, w) =>
    match s.osOpen rs w with
    | (.error err, w) => (.error err, w)
    | (.ok srcFile, w) =>
      match s.osCreate rd w with
      | (.error err, w) => (.error err, os.Close srcFile w)
      | (.ok dstFile, w) =>
        match s.ioCopyBuffer dstFile (Reader.file srcFile) (1024 * 1024) w with
        | ((_, some err), w) => (.error err, os.Close srcFile (os.Close dstFile w))
        | ((_, none), w) => (.ok (), os.Close srcFile (os.Close dstFile w))

/-- Function move. -/
def move (s : Storage σ) (src dst : String) (w : σ) : Except Err Unit × σ :=
  let rs := s.getAbsPath src
  let rd := s.getAbsPath dst
  -- Create dir for dst path.
  match s.createDir dst w with
  | (.error err, w) => (.error err, w)
  | (.ok _, w) =>
    match s.osRename rs rd w with
    | (.error err, w) => (.error err, w)
    | (.ok _, w) => (.ok (), w)

/-- The filesystem operations a storage value can invoke. -/
inductive Call where
  | createDir
  | osOpen
  | osCreate
  | osStat
  | osRemove
  | osRename
  | ioutilReadDir
  deriving DecidableEq, Repr

/-- The storage s with every filesystem operation recorded: each call appends
its tag to a log carried next to the world, then runs the operation of s. -/
def Storage.traced (s : Storage σ) : Storage (σ × List Call) :=
  { workDir := s.workDir
    getAbsPath := s.getAbsPath
    createDir := fun p w => ((s.createDir p w.1).1, ((s.createDir p w.1).2, w.2 ++ [Call.createDir]))
    osOpen := fun p w => ((s.osOpen p w.1).1, ((s.osOpen p w.1).2, w.2 ++ [Call.osOpen]))
    osCreate := fun p w => ((s.osCreate p w.1).1, ((s.osCreate p w.1).2, w.2 ++ [Call.osCreate]))
    osStat := fun p w => ((s.osStat p w.1).1, ((s.osStat p w.1).2, w.2 ++ [Call.osStat]))
    osRemove := fun p w => ((s.osRemove p w.1).1, ((s.osRemove p w.1).2, w.2 ++ [Call.osRemove]))
    osRename := fun p q w =>
      ((s.osRename p q w.1).1, ((s.osRename p q w.1).2, w.2 ++ [Call.osRename]))
    ioutilReadDir := fun p w =>
      ((s.ioutilReadDir p w.1).1, ((s.ioutilReadDir p w.1).2, w.2 ++ [Call.ioutilReadDir]))
    ioCopyN := fun f r n w => ((s.ioCopyN f r n w.1).1, ((s.ioCopyN f r n w.1).2, w.2))
    ioCopyBuffer := fun f r n w =>
      ((s.ioCopyBuffer f r n w.1).1, ((s.ioCopyBuffer f r n w.1).2, w.2)) }

/-! ## A model of the host filesystem

The operations above are parametric in the system functions.  To state what
read, write, copy and move do to file contents, the system functions are
instantiated on a model of a POSIX filesystem: a tree of regular files and
directories addressed by component lists, a table of open descriptors, and the
two standard streams.  Permissions, symbolic links, hard links and files that
are unlinked or renamed while a descriptor is open are outside the model. -/

/-- A resolved location: the components of an absolute path, root first. -/
abbrev Loc := List String

/-- An entry of the filesystem. -/
inductive Node where
  | file (data : List Byte)
  | dir
  deriving DecidableEq, Repr

/-- An open descriptor: the location it was opened at, the file offset, whether
it was opened for writing and whether it has been closed. -/
structure Handle where
  loc : Loc
  pos : Nat
  writable : Bool
  closed : Bool
  deriving DecidableEq, Repr

/-- The state of the host: the entries, the descriptor table (descriptor n is
entry n of the table), unread standard input, written standard output, and
the largest file offset the filesystem accepts in a seek (at most 2^63 - 1,
the largest int64; 2^44 - 4096 on ext4 with 4 KiB blocks). -/
structure World where
  nodes : Loc → Option Node
  handles : List Handle
  stdin : List Byte
  stdout : List Byte
  maxOffset : Nat

/-- Split a character list at every slash. -/
def splitSlash : List Char → List Char → List (List Char)
  | cur, [] => [cur.reverse]
  | cur, c :: cs => if c = '/' then cur.reverse :: splitSlash [] cs else splitSlash (c :: cur) cs

/-- One step of path cleaning: empty and dot components vanish, a dot-dot
component removes the component before it. -/
def cleanStep (acc : Loc) (c : String) : Loc :=
  if c = "" ∨ c = "." then acc else if c = ".." then acc.dropLast else acc ++ [c]

/-- The location an absolute slash-separated path names. -/
def components (p : String) : Loc :=
  ((splitSlash [] p.data).map String.mk).foldl cleanStep []

/-- Whether the entry is a regular file. -/
def Node.isFile : Option Node → Bool
  | some (Node.file _) => true
  | _ => false

/-- Replace the entry at location l. -/
def World.setNode (w : World) (l : Loc) (n : Option Node) : World :=
  { w with nodes := fun p => if p = l then n else w.nodes p }

/-- System call os.Open: a read-only descriptor at offset 0. -/
def World.osOpen (w : World) (l : Loc) : Except Err File × World :=
  match w.nodes l with
  | none => (.error Err.notExist, w)
  | some _ =>
    (.ok (File.fd w.handles.length),
      { w with handles := w.handles ++ [{ loc := l, pos := 0, writable := false, closed := false }] })

/-- System call os.Create: create or truncate the file and return a writable
descriptor at offset 0.  The parent must be an existing directory. -/
def World.osCreate (w : World) (l : Loc) : Except Err File × World :=
  match w.nodes l with
  | some Node.dir => (.error Err.isDir, w)
  | _ =>
    match w.nodes l.dropLast with
    | none => (.error Err.notExist, w)
    | some (Node.file _) => (.error Err.notDir, w)
    | some Node.dir =>
      (.ok (File.fd w.handles.length),
        { (w.setNode l (some (Node.file []))) with
          handles := w.handles ++ [{ loc := l, pos := 0, writable := true, closed := false }] })

/-- The entries after every location from the root down to l is a directory. -/
def mkdirNodes (nodes : Loc → Option Node) (l : Loc) : Loc → Option Node :=
  fun p => if p.isPrefixOf l then some Node.dir else nodes p

/-- System call os.MkdirAll: every location from the root down to l becomes a
directory; it fails when one of them is a regular file. -/
def World.osMkdirAll (w : World) (l : Loc) : Except Err Unit × World :=
  if l.inits.any (fun q => Node.isFile (w.nodes q)) then (.error Err.notDir, w)
  else (.ok (), { w with nodes := mkdirNodes w.nodes l })

/-- System call os.Remove of a file or directory entry. -/
def World.osRemove (w : World) (l : Loc) : Except Err Unit × World :=
  match w.nodes l with
  | none => (.error Err.notExist, w)
  | some _ => (.ok (), w.setNode l none)

/-- The entries after the subtree at rs has moved to rd. -/
def renameNodes (nodes : Loc → Option Node) (rs rd : Loc) : Loc → Option Node :=
  fun p =>
    if rd.isPrefixOf p then nodes (rs ++ p.drop rd.length)
    else if rs.isPrefixOf p then none
    else nodes p

/-- System call os.Rename.  The entry at rs, with everything below it, moves
to rd and replaces what was there.  Renaming an entry onto itself succeeds
and changes nothing.  The emptiness test on an existing target directory is
not modelled: the rename goes through. -/
def World.osRename (w : World) (rs rd : Loc) : Except Err Unit × World :=
  match w.nodes rs with
  | none => (.error Err.notExist, w)
  | some n =>
    if rs = rd then (.ok (), w)
    else if rs.isPrefixOf rd then (.error Err.invalid, w)
    else if rd.isPrefixOf rs then (.error Err.exist, w)
    else
      match w.nodes rd.dropLast with
      | none => (.error Err.notExist, w)
      | some (Node.file _) => (.error Err.notDir, w)
      | some Node.dir =>
        match n, w.nodes rd with
        | Node.file _, some Node.dir => (.error Err.isDir, w)
        | Node.dir, some (Node.file _) => (.error Err.notDir, w)
        | _, _ =>
          (.ok (), { w with nodes := renameNodes w.nodes rs rd })

/-- System call os.Stat. -/
def World.osStat (w : World) (l : Loc) : Except Err FileInfo × World :=
  match w.nodes l with
  | none => (.error Err.notExist, w)
  | some (Node.file data) =>
    (.ok { Name := l.getLastD "/", Size := data.length, Mode := 420, ModTime := 0, IsDir := false }, w)
  | some Node.dir =>
    (.ok { Name := l.getLastD "/", Size := 0, Mode := ModeDir ||| 493, ModTime := 0, IsDir := true }, w)

/-- Method File.Close. -/
def World.Close (f : File) (w : World) : World :=
  match f with
  | File.fd n =>
    match w.handles.get? n with
    | none => w
    | some hd => { w with handles := w.handles.set n { hd with closed := true } }
  | _ => w

/-- Method File.Seek with whence 0.  A negative offset and an offset beyond
the largest one the filesystem accepts are the error EINVAL. -/
def World.Seek (f : File) (offset : Int) (w : World) : Except Err Int × World :=
  match f with
  | File.fd n =>
    match w.handles.get? n with
    | none => (.error Err.invalid, w)
    | some hd =>
      if hd.closed then (.error Err.closed, w)
      else if offset < 0 then (.error Err.invalid, w)
      else if offset > (w.maxOffset : Int) then (.error Err.invalid, w)
      else (.ok offset, { w with handles := w.handles.set n { hd with pos := offset.toNat } })
  | _ => (.error Err.invalid, w)

/-- Method File.Read into a buffer of len bytes: the bytes read and the error. -/
def World.Read (f : File) (len : Nat) (w : World) : (List Byte × Option Err) × World :=
  match f with
  | File.stdin =>
    if len = 0 then (([], none), w)
    else if w.stdin = [] then (([], some Err.eof), w)
    else ((w.stdin.take len, none), { w with stdin := w.stdin.drop len })
  | File.stdout => (([], some Err.invalid), w)
  | File.fd n =>
    match w.handles.get? n with
    | none => (([], some Err.invalid), w)
    | some hd =>
      if hd.closed then (([], some Err.closed), w)
      else
        match w.nodes hd.loc with
        | none => (([], some Err.notExist), w)
        | some Node.dir => (([], some Err.isDir), w)
        | some (Node.file data) =>
          if len = 0 then (([], none), w)
          else if data.length ≤ hd.pos then (([], some Err.eof), w)
          else
            (((data.drop hd.pos).take len, none),
              { w with handles :=
                  w.handles.set n { hd with pos := hd.pos + ((data.drop hd.pos).take len).length } })

/-- The content of a file after bytes are written at offset pos. -/
def writeAt (data : List Byte) (pos : Nat) (bytes : List Byte) : List Byte :=
  data.take pos ++ List.replicate (pos - data.length) 0 ++ bytes ++ data.drop (pos + bytes.length)

/-- Method File.Write: the count of bytes written and the error. -/
def World.Write (f : File) (bytes : List Byte) (w : World) : (Nat × Option Err) × World :=
  match f with
  | File.stdin => ((0, some Err.invalid), w)
  | File.stdout => ((bytes.length, none), { w with stdout := w.stdout ++ bytes })
  | File.fd n =>
    match w.handles.get? n with
    | none => ((0, some Err.invalid), w)
    | some hd =>
      if hd.closed then ((0, some Err.closed), w)
      else if !hd.writable then ((0, some Err.invalid), w)
      else
        match w.nodes hd.loc with
        | some (Node.file data) =>
          ((bytes.length, none),
            { (w.setNode hd.loc (some (Node.file (writeAt data hd.pos bytes)))) with
              handles := w.handles.set n { hd with pos := hd.pos + bytes.length } })
        | _ => ((0, some Err.invalid), w)

/-- Method Read of an io.Reader with a buffer of len bytes: the bytes read, the
error, the reader afterwards and the world afterwards. -/
def Reader.Read : Reader → Nat → World → ((List Byte × Option Err) × Reader) × World
  | Reader.bytes rest, len, w =>
    if rest = [] then ((([], some Err.eof), Reader.bytes rest), w)
    else (((rest.take len, none), Reader.bytes (rest.drop len)), w)
  | Reader.file f, len, w =>
    (((w.Read f len).1, Reader.file f), (w.Read f len).2)
  | Reader.limit r n, len, w =>
    if n ≤ 0 then ((([], some Err.eof), Reader.limit r n), w)
    else
      let len := if (len : Int) > n then n.toNat else len
      match r.Read len w with
      | ((res, r), w) => ((res, Reader.limit r (n - res.1.length)), w)
  | Reader.callback r calls, len, w =>
    match r.Read len w with
    | ((res, r), w) => ((res, Reader.callback r (calls ++ [res.1.length])), w)

/-- The loop of io.Copy and io.CopyBuffer with a buffer of bufLen bytes, run
for at most the given number of iterations. -/
def copyLoop (bufLen : Nat) : Nat → File → Reader → Int → World → (Int × Option Err) × World
  | 0, _, _, written, w => ((written, some Err.outOfFuel), w)
  | fuel + 1, dst, src, written, w =>
    match src.Read bufLen w with
    | (((buf, er), src), w) =>
      let wr : (Int × Option Err) × World :=
        if buf.length > 0 then
          match w.Write dst buf with
          | ((nw, some ew), w) => ((written + nw, some ew), w)
          | ((nw, none), w) =>
            if buf.length ≠ nw then ((written + nw, some Err.shortWrite), w)
            else ((written + nw, none), w)
        else ((written, none), w)
      match wr with
      | ((written, some ew), w) => ((written, some ew), w)
      | ((written, none), w) =>
        match er with
        | some Err.eof => ((written, none), w)
        | some e => ((written, some e), w)
        | none => copyLoop bufLen fuel dst src written w

/-- Function io.CopyBuffer with a buffer of bufLen bytes. -/
def ioCopyBuffer (fuel : Nat) (dst : File) (src : Reader) (bufLen : Nat) (w : World) :
    (Int × Option Err) × World :=
  copyLoop bufLen fuel dst src 0 w

/-- Function io.CopyN: copy through a limited reader; fewer than n bytes
without an error is the error EOF. -/
def ioCopyN (fuel : Nat) (dst : File) (src : Reader) (n : Int) (w : World) :
    (Int × Option Err) × World :=
  let size : Nat := if n < 1 then 1 else if n < 32 * 1024 then n.toNat else 32 * 1024
  match copyLoop size fuel dst (Reader.limit src n) 0 w with
  | ((written, err), w) =>
    if written = n then ((n, none), w)
    else if written < n ∧ err = none then ((written, some Err.eof), w)
    else ((written, err), w)

/-- Drain a reader, as ioutil.ReadAll does, with reads of chunk bytes and at
most the given number of reads. -/
def readAll (chunk : Nat) : Nat → Reader → World → (Except Err (List Byte) × Reader) × World
  | 0, r, w => ((.error Err.outOfFuel, r), w)
  | fuel + 1, r, w =>
    match r.Read chunk w with
    | (((buf, none), r), w) =>
      match readAll chunk fuel r w with
      | ((.ok more, r), w) => ((.ok (buf ++ more), r), w)
      | ((.error e, r), w) => ((.error e, r), w)
    | (((buf, some Err.eof), r), w) => ((.ok buf, r), w)
    | (((_, some e), r), w) => ((.error e, r), w)

/-- The direct os calls on the model.  The model has no symbolic links, so
EvalSymlinks returns the path of an existing entry unchanged. -/
def posixOS : OS World :=
  { Close := World.Close
    Seek := World.Seek
    EvalSymlinks := fun p w =>
      match w.nodes (components p) with
      | none => (.error Err.notExist, w)
      | some _ => (.ok p, w)
    Stat := fun p w => w.osStat (components p) }

/-- Modelled from the spec: getAbsPath, which is not in storage.go, joins the
configured root with the logical path using the native separator. -/
def getAbsPath (workDir path : String) : String := workDir ++ "/" ++ path

/-- Modelled from the spec: createDir, which is not in storage.go, ensures all
intermediate directories of the target path exist, creating them as needed
(recursive directory creation of the parent of the resolved path). -/
def createDir (workDir path : String) (w : World) : Except Err Unit × World :=
  w.osMkdirAll (components (getAbsPath workDir path)).dropLast

/-- The storage value over the model: the system functions are the ones of
the model, with loops bounded by fuel.  The directory read is a parameter. -/
def posix (workDir : String) (fuel : Nat)
    (readDir : String → World → Except Err (List FileInfo) × World) : Storage World :=
  { workDir := workDir
    getAbsPath := getAbsPath workDir
    createDir := createDir workDir
    osOpen := fun p w => w.osOpen (components p)
    osCreate := fun p w => w.osCreate (components p)
    osStat := fun p w => w.osStat (components p)
    osRemove := fun p w => w.osRemove (components p)
    osRename := fun p q w => w.osRename (components p) (components q)
    ioutilReadDir := readDir
    ioCopyN := ioCopyN fuel
    ioCopyBuffer := ioCopyBuffer fuel }


/-- The bytes a caller gets from the result of read by draining the returned
stream with reads of chunk bytes; an error of read is passed on. -/
def drain (chunk reads : Nat) (res : Except Err Reader × World) : Except Err (List Byte) :=
  match res with
  | (.ok rc, w) => (readAll chunk reads rc w).1.1
  | (.error e, _) => .error e

/-- A reader that delivers the bytes rest and keeps no state in the world: the
in-memory source, possibly wrapped in callback readers. -/
inductive Src : Reader → List Byte → Prop where
  | bytes (rest : List Byte) : Src (Reader.bytes rest) rest
  | callback {r : Reader} {rest : List Byte} (calls : List Nat) :
      Src r rest → Src (Reader.callback r calls) rest

/-! ## Concrete hosts and worlds used to evaluate the operations -/

/-- A content-type table keyed by the extension of the name. -/
def demoMime (name : String) : String :=
  if ".txt".data.isSuffixOf name.data then "text/plain"
  else if ".png".data.isSuffixOf name.data then "image/png"
  else ""

/-- A host with the slash as native separator. -/
def unixHost : Host :=
  { Separator := '/'
    filepathJoin := fun a b => a ++ "/" ++ b
    pathJoin := fun a b => a ++ "/" ++ b
    mimeDetect := demoMime
    StreamModeType := ModeNamedPipe ||| ModeSocket ||| ModeDevice ||| ModeCharDevice }

/-- A host with the backslash as native separator. -/
def windowsHost : Host :=
  { Separator := '\\'
    filepathJoin := fun a b => a ++ "\\" ++ b
    pathJoin := fun a b => a ++ "/" ++ b
    mimeDetect := demoMime
    StreamModeType := 0 }

/-- A storage value whose stat finds a regular file at every path and whose
directory read returns the entries fi; every other system function fails.
The world is the list of objects handed to callbacks so far. -/
def listingStorage (h : Host) (workDir : String) (fi : List FileInfo) : Storage (List Object) :=
  { workDir := workDir
    getAbsPath := fun p => h.filepathJoin workDir p
    createDir := fun _ w => (.error Err.invalid, w)
    osOpen := fun _ w => (.error Err.invalid, w)
    osCreate := fun _ w => (.error Err.invalid, w)
    osStat := fun _ w =>
      (.ok { Name := "b", Size := 4, Mode := 420, ModTime := 0, IsDir := false }, w)
    osRemove := fun _ w => (.error Err.invalid, w)
    osRename := fun _ _ w => (.error Err.invalid, w)
    ioutilReadDir := fun _ w => (.ok fi, w)
    ioCopyN := fun _ _ _ w => ((0, some Err.invalid), w)
    ioCopyBuffer := fun _ _ _ w => ((0, some Err.invalid), w) }

/-- Direct os calls for a directory whose one symbolic link c.txt points at the
regular file /data/img.png. -/
def linkOS : OS (List Object) :=
  { Close := fun _ w => w
    Seek := fun _ _ w => (.error Err.invalid, w)
    EvalSymlinks := fun p w =>
      if p = "/w/d/c.txt" then (.ok "/data/img.png", w) else (.error Err.notExist, w)
    Stat := fun p w =>
      if p = "/data/img.png" then
        (.ok { Name := "img.png", Size := 10, Mode := 420, ModTime := 0, IsDir := false }, w)
      else (.error Err.notExist, w) }

/-- Callbacks that record the object they receive. -/
def recordingOpt (follow : Bool) : PairStorageListDir (List Object) :=
  { EnableLinkFollow := follow
    HasDirFunc := true
    DirFunc := fun o w => w ++ [o]
    HasFileFunc := true
    FileFunc := fun o w => w ++ [o] }

/-- The entries of the directory d: a regular file a.txt, a directory b and a
symbolic link c.txt. -/
def demoEntries : List FileInfo :=
  [ { Name := "a.txt", Size := 3, Mode := 420, ModTime := 0, IsDir := false },
    { Name := "b", Size := 0, Mode := ModeDir ||| 493, ModTime := 0, IsDir := true },
    { Name := "c.txt", Size := 0, Mode := ModeSymlink ||| 511, ModTime := 0, IsDir := false } ]

/-- A world with the work directory /w holding the file a.txt with content
1, 2, 3 and nothing else. -/
def demoWorld : World :=
  { nodes := fun p =>
      if p = [] ∨ p = ["w"] then some Node.dir
      else if p = ["w", "a.txt"] then some (Node.file [1, 2, 3])
      else none
    handles := []
    stdin := []
    stdout := []
    maxOffset := 2 ^ 44 - 4096 }

/-- A directory read for the model storage that reports no entries. -/
def emptyReadDir : String → World → Except Err (List FileInfo) × World :=
  fun _ w => (.ok [], w)

/-- The model storage rooted at /w. -/
def demoStorage : Storage World := posix "/w" 8 emptyReadDir

/-- The world after the callbacks that listDir invokes, with link-following
disabled and both callbacks registered, on the entries fi: symlinks get no
callback, every other entry gets DirFunc when it is a directory and FileFunc
otherwise, in the order of fi. -/
def listDirNoFollowEffect (h : Host) (rp dir : String) (opt : PairStorageListDir σ)
    (fi : List FileInfo) (w : σ) : σ :=
  (fi.filter (fun v => v.Mode &&& ModeSymlink == 0)).foldl
    (fun w v =>
      if v.IsDir then opt.DirFunc (listDirDirObject h rp dir v v) w
      else opt.FileFunc (listDirFileObject h rp dir v v) w) w

/-- The type stat gives to an entry with the file information fi. -/
def statType (h : Host) (fi : FileInfo) : ObjectType :=
  if fi.IsDir then ObjectType.dir
  else if IsRegular fi.Mode then ObjectType.file
  else if fi.Mode &&& h.StreamModeType != 0 then ObjectType.stream
  else ObjectType.invalid

/-! ## Theorems -/

theorem listDirLoop_noFollow (h : Host) (os : OS σ) (rp dir : String)
    (opt : PairStorageListDir σ) (hf : opt.EnableLinkFollow = false)
    (hd : opt.HasDirFunc = true) (hfile : opt.HasFileFunc = true) (fi : List FileInfo) :
    ∀ w : σ, listDirLoop h os rp dir opt fi w
      = (Except.ok (), listDirNoFollowEffect h rp dir opt fi w) := by
  induction fi with
  | nil => intro w; rfl
  | cons v rest ih =>
    intro w
    by_cases hv : v.Mode &&& ModeSymlink = 0
    · have hc : checkLink h os v rp w = (Except.ok v, w) := by simp [checkLink, hv]
      by_cases hdir : v.IsDir = true
      · simp [listDirLoop, hv, hc, hdir, hd, ih, listDirNoFollowEffect]
      · simp [listDirLoop, hv, hc, hdir, hfile, ih, listDirNoFollowEffect]
    · simp [listDirLoop, hv, hf, ih, listDirNoFollowEffect]

/-- C5: when the directory read returns the enumeration fi, listDir with
link-following disabled and both callbacks registered returns no error, and
the world it leaves is the one reached by running, over the non-symlink
entries of fi in order, DirFunc on a directory entry and FileFunc on any
other entry, once each; symlink entries get no callback. -/
theorem listDir_noFollow_callbacks (h : Host) (os : OS σ) (s : Storage σ) (dir : String)
    (opt : PairStorageListDir σ) (w w1 : σ) (fi : List FileInfo)
    (hread : s.ioutilReadDir (s.getAbsPath dir) w = (Except.ok fi, w1))
    (hf : opt.EnableLinkFollow = false) (hd : opt.HasDirFunc = true)
    (hfile : opt.HasFileFunc = true) :
    listDir h os s dir opt w
      = (Except.ok (), listDirNoFollowEffect h (s.getAbsPath dir) (h.ToSlash dir) opt fi w1) := by
  simp only [listDir, hread]
  exact listDirLoop_noFollow h os _ _ opt hf hd hfile fi w1

/-- C6: for every storage value and every world, stat of the path "-" returns
without error an object of type stream and size 0, and stat, read and write
on "-" run none of the recorded filesystem operations (createDir, osOpen,
osCreate, osStat among them): the call log is unchanged; for stat and read the
whole world is unchanged. -/
theorem sentinel_touches_no_filesystem (h : Host) (os : OS (σ × List Call)) (s : Storage σ)
    (w : σ) (log : List Call) (ropt : PairStorageRead) (r : Reader) (wopt : PairStorageWrite) :
    (∃ o, stat h s.traced "-" (w, log) = (Except.ok o, (w, log))
        ∧ o.Typ = ObjectType.stream ∧ o.Size = 0)
    ∧ (∃ rc, read os s.traced "-" ropt (w, log) = (Except.ok rc, (w, log)))
    ∧ (write s.traced "-" r wopt (w, log)).2.2 = log := by
  refine ⟨⟨_, rfl, rfl, rfl⟩, ?_, ?_⟩
  · cases hs : ropt.HasSize <;> simp [read, hs]
  · simp only [write, if_true]
    cases hs : wopt.HasSize <;> simp only [Bool.false_eq_true, if_true, if_false] <;> split <;>
      (rename_i heq; have h2 := congrArg Prod.snd heq; simp only [Storage.traced] at h2;
       rw [← h2])

/-- C5 evaluated: on the entries a.txt, b and the link c.txt, with
link-following disabled, the callbacks receive a.txt as a file and b as a
directory, in this order, and nothing for c.txt. -/
theorem listDir_noFollow_callbacks_witness :
    listDir unixHost linkOS (listingStorage unixHost "/w" demoEntries) "d" (recordingOpt false) []
      = (Except.ok (),
          [ { ID := "/w/d/a.txt", Name := "d/a.txt", Typ := ObjectType.file, Size := 3,
              UpdatedAt := 0, ContentType := some "text/plain" },
            { ID := "/w/d/b", Name := "d/b", Typ := ObjectType.dir, Size := 0,
              UpdatedAt := 0, ContentType := none } ]) :=
  (listDir_noFollow_callbacks unixHost linkOS (listingStorage unixHost "/w" demoEntries) "d"
    (recordingOpt false) [] [] demoEntries rfl rfl rfl rfl).trans (by rfl)

/-- C7: for a path other than "-", when the underlying stat fails stat returns
that error and no object; when it succeeds stat returns no error and an object
whose type is directory for a directory, file for a regular file, stream when
the mode has a bit of the stream-mode mask, and invalid otherwise. -/
theorem stat_classifies (h : Host) (s : Storage σ) (path : String) (w : σ) (hp : path ≠ "-") :
    (∀ e w1, s.osStat (s.getAbsPath path) w = (Except.error e, w1) →
        stat h s path w = (Except.error e, w1))
    ∧ (∀ fi w1, s.osStat (s.getAbsPath path) w = (Except.ok fi, w1) →
        ∃ o, stat h s path w = (Except.ok o, w1) ∧ o.Typ = statType h fi) := by
  constructor
  · intro e w1 he
    simp [stat, hp, he]
  · intro fi w1 hfi
    simp only [stat, hp, if_false, hfi, statType]
    by_cases h1 : fi.IsDir = true
    · simp [h1]
    · by_cases h2 : IsRegular fi.Mode = true
      · simp [h1, h2]
      · by_cases h3 : (fi.Mode &&& h.StreamModeType != 0) = true
        · simp [h1, h2, h3]
        · simp [h1, h2, h3]

/-- C7 evaluated on the model: stat of a.txt returns an object of type file. -/
theorem stat_classifies_witness :
    ∃ o, stat unixHost demoStorage "a.txt" demoWorld = (Except.ok o, demoWorld)
      ∧ o.Typ = statType unixHost
          { Name := "a.txt", Size := 3, Mode := 420, ModTime := 0, IsDir := false } :=
  (stat_classifies unixHost demoStorage "a.txt" demoWorld (by decide)).2
    { Name := "a.txt", Size := 3, Mode := 420, ModTime := 0, IsDir := false } demoWorld (by rfl)

/-- C8 on the code: on a host whose separator is the backslash, stat of the
path a\b returns an object whose name is a\b, which is not its
slash-converted form a/b. -/
theorem stat_name_keeps_native_separator :
    ∃ o, stat windowsHost (listingStorage windowsHost "C:\\w" []) "a\\b" [] = (Except.ok o, [])
      ∧ o.Name = "a\\b" ∧ windowsHost.ToSlash o.Name = "a/b" ∧ windowsHost.ToSlash o.Name ≠ o.Name :=
  ⟨_, rfl, by decide, by decide, by decide⟩

/-- C9 as stated fails: with link-following enabled the link c.txt, whose
target is the file img.png, reaches the file callback with the content type of
img.png (image/png), not the one of the entry name c.txt (text/plain). -/
theorem listDir_contentType_not_from_entry_name :
    listDir unixHost linkOS
        (listingStorage unixHost "/w"
          [{ Name := "c.txt", Size := 0, Mode := ModeSymlink ||| 511, ModTime := 0, IsDir := false }])
        "d" (recordingOpt true) []
      = (Except.ok (),
          [ { ID := "/w/d/c.txt", Name := "d/c.txt", Typ := ObjectType.file, Size := 10,
              UpdatedAt := 0, ContentType := some "image/png" } ])
    ∧ unixHost.mimeDetect "c.txt" = "text/plain" := by
  constructor
  · rfl
  · decide

/-- C9 amended: when listDir processes an entry v whose resolved target is not
a directory, the file callback receives an object of type file whose content
type is the one detected from the name of the resolved target (absent when
nothing is detected); for an entry that is not a symlink the target is the
entry itself. -/
theorem listDir_file_contentType (h : Host) (os : OS σ) (rp dir : String)
    (opt : PairStorageListDir σ) (v : FileInfo) (rest : List FileInfo) (w w1 : σ)
    (target : FileInfo)
    (hskip : ((v.Mode &&& ModeSymlink != 0) && !opt.EnableLinkFollow) = false)
    (hc : checkLink h os v rp w = (Except.ok target, w1))
    (hnd : target.IsDir = false) (hfile : opt.HasFileFunc = true) :
    ∃ o, listDirLoop h os rp dir opt (v :: rest) w
          = listDirLoop h os rp dir opt rest (opt.FileFunc o w1)
      ∧ o.Typ = ObjectType.file
      ∧ o.ContentType
          = (if h.mimeDetect target.Name = "" then none else some (h.mimeDetect target.Name))
      ∧ (v.Mode &&& ModeSymlink = 0 → target = v) := by
  refine ⟨listDirFileObject h rp dir v target, ?_, rfl, ?_, ?_⟩
  · simp only [listDirLoop, hskip, hc, hnd, hfile, if_true]
    simp
  · by_cases hm : h.mimeDetect target.Name = "" <;> simp [listDirFileObject, listDirObject, hm]
  · intro hv
    simp [checkLink, hv] at hc
    exact hc.1.symm


/-- C9 amended, evaluated: the followed link c.txt with target img.png. -/
theorem listDir_file_contentType_witness :
    ∃ o, listDirLoop unixHost linkOS "/w/d" "d" (recordingOpt true)
            [{ Name := "c.txt", Size := 0, Mode := ModeSymlink ||| 511, ModTime := 0,
               IsDir := false }] []
          = listDirLoop unixHost linkOS "/w/d" "d" (recordingOpt true) []
              ((recordingOpt true).FileFunc o [])
      ∧ o.Typ = ObjectType.file
      ∧ o.ContentType
          = (if unixHost.mimeDetect "img.png" = "" then none
             else some (unixHost.mimeDetect "img.png"))
      ∧ ((ModeSymlink ||| 511) &&& ModeSymlink = 0 →
          ({ Name := "img.png", Size := 10, Mode := 420, ModTime := 0, IsDir := false } : FileInfo)
            = { Name := "c.txt", Size := 0, Mode := ModeSymlink ||| 511, ModTime := 0,
                IsDir := false }) :=
  listDir_file_contentType unixHost linkOS "/w/d" "d" (recordingOpt true)
    { Name := "c.txt", Size := 0, Mode := ModeSymlink ||| 511, ModTime := 0, IsDir := false }
    [] [] [] { Name := "img.png", Size := 10, Mode := 420, ModTime := 0, IsDir := false }
    (by decide) (by rfl) rfl rfl

/-- C3 on the code: copying the file a.txt, of content 1, 2, 3, onto itself
succeeds and leaves a.txt empty. -/
theorem copy_onto_itself_truncates :
    demoWorld.nodes ["w", "a.txt"] = some (Node.file [1, 2, 3])
    ∧ (copy posixOS demoStorage "a.txt" "a.txt" demoWorld).1 = Except.ok ()
    ∧ (copy posixOS demoStorage "a.txt" "a.txt" demoWorld).2.nodes ["w", "a.txt"]
        = some (Node.file []) :=
  ⟨by decide, by rfl, by decide⟩

/-- Copy to a different path, evaluated: copying a.txt to x/b.txt, whose
directory x does not exist yet, succeeds, leaves a.txt as it was, gives
x/b.txt the same content and closes both descriptors. -/
theorem copy_to_new_directory_example :
    (copy posixOS demoStorage "a.txt" "x/b.txt" demoWorld).1 = Except.ok ()
    ∧ (copy posixOS demoStorage "a.txt" "x/b.txt" demoWorld).2.nodes ["w", "a.txt"]
        = some (Node.file [1, 2, 3])
    ∧ (copy posixOS demoStorage "a.txt" "x/b.txt" demoWorld).2.nodes ["w", "x", "b.txt"]
        = some (Node.file [1, 2, 3])
    ∧ (copy posixOS demoStorage "a.txt" "x/b.txt" demoWorld).2.handles.map Handle.closed
        = [true, true] :=
  ⟨by rfl, by decide, by decide, by decide⟩

/-- C10 on the code: a successful write returns with the descriptor it got from
osCreate still open, and a read whose seek fails returns the error with the
descriptor it got from osOpen still open. -/
theorem write_and_failed_seek_leave_descriptor_open :
    (write demoStorage "n.txt" (Reader.bytes [7, 8, 9])
        { HasSize := false, Size := 0, HasReadCallbackFunc := false } demoWorld).1 = Except.ok ()
    ∧ (write demoStorage "n.txt" (Reader.bytes [7, 8, 9])
        { HasSize := false, Size := 0, HasReadCallbackFunc := false } demoWorld).2.handles
        = [{ loc := ["w", "n.txt"], pos := 3, writable := true, closed := false }]
    ∧ (read posixOS demoStorage "a.txt"
        { HasOffset := true, Offset := -1, HasSize := false, Size := 0,
          HasReadCallbackFunc := false } demoWorld).1 = Except.error Err.invalid
    ∧ (read posixOS demoStorage "a.txt"
        { HasOffset := true, Offset := -1, HasSize := false, Size := 0,
          HasReadCallbackFunc := false } demoWorld).2.handles
        = [{ loc := ["w", "a.txt"], pos := 0, writable := false, closed := false }] :=
  ⟨by rfl, by decide, by rfl, by decide⟩

/-- C2 as stated fails: the source 7, 8, 9 has at least 2 bytes, yet write
with size 2 to the path a.txt/z returns an error, because a.txt is a regular
file and the directory for the path cannot be created. -/
theorem write_fails_when_directory_creation_fails :
    (2 : Int) ≤ ([7, 8, 9] : List Byte).length
    ∧ "a.txt/z" ≠ "-"
    ∧ (write demoStorage "a.txt/z" (Reader.bytes [7, 8, 9])
        { HasSize := true, Size := 2, HasReadCallbackFunc := false } demoWorld).1
        = Except.error Err.notDir :=
  ⟨by decide, by decide, by rfl⟩

/-- C4 as stated fails: moving a.txt onto itself succeeds, a.txt still exists
afterwards, and the same move issued again succeeds too. -/
theorem move_onto_itself_keeps_source :
    (move demoStorage "a.txt" "a.txt" demoWorld).1 = Except.ok ()
    ∧ (move demoStorage "a.txt" "a.txt" demoWorld).2.nodes ["w", "a.txt"]
        = some (Node.file [1, 2, 3])
    ∧ (move demoStorage "a.txt" "a.txt" (move demoStorage "a.txt" "a.txt" demoWorld).2).1
        = Except.ok () :=
  ⟨by rfl, by decide, by rfl⟩


/-! ### Move on the model -/

theorem osMkdirAll_ok {w w1 : World} {l : Loc} (h : w.osMkdirAll l = (Except.ok (), w1)) :
    w1 = { w with nodes := mkdirNodes w.nodes l }
      ∧ ∀ q, q <+: l → Node.isFile (w.nodes q) = false := by
  unfold World.osMkdirAll at h
  split at h
  · cases h
  · rename_i hany
    refine ⟨by cases h; rfl, ?_⟩
    intro q hq
    simp only [List.any_eq_true, not_exists, not_and, Bool.not_eq_true] at hany
    exact hany q ((List.mem_inits q l).2 hq)

theorem osMkdirAll_of_dirs {w : World} {l : Loc}
    (h : ∀ q, q <+: l → Node.isFile (w.nodes q) = false) :
    w.osMkdirAll l = (Except.ok (), { w with nodes := mkdirNodes w.nodes l }) := by
  unfold World.osMkdirAll
  rw [if_neg]
  simp only [List.any_eq_true, not_exists, not_and, Bool.not_eq_true]
  intro q hq
  exact h q ((List.mem_inits q l).1 hq)

theorem osRename_ok {w w1 : World} {rs rd : Loc} (hne : rs ≠ rd)
    (h : w.osRename rs rd = (Except.ok (), w1)) :
    (∃ n, w.nodes rs = some n) ∧ ¬ rs <+: rd ∧ ¬ rd <+: rs
      ∧ w.nodes rd.dropLast = some Node.dir
      ∧ w1 = { w with nodes := renameNodes w.nodes rs rd } := by
  unfold World.osRename at h
  split at h
  · cases h
  · rename_i n hn
    have hex : ∃ n, w.nodes rs = some n := ⟨n, hn⟩
    rw [if_neg hne] at h
    split at h
    · cases h
    · rename_i hp1
      split at h
      · cases h
      · rename_i hp2
        split at h
        · cases h
        · cases h
        · rename_i hpar
          split at h
          · cases h
          · cases h
          · refine ⟨hex, ?_, ?_, hpar, by cases h; rfl⟩
            · simpa using hp1
            · simpa using hp2

theorem renameNodes_source {nodes : Loc → Option Node} {rs rd : Loc} (h : ¬ rd <+: rs) :
    renameNodes nodes rs rd rs = none := by
  simp [renameNodes, h]

theorem renameNodes_target (nodes : Loc → Option Node) (rs rd : Loc) :
    renameNodes nodes rs rd rd = nodes rs := by
  simp [renameNodes]

theorem renameNodes_above {nodes : Loc → Option Node} {rs rd q : Loc}
    (hq : q <+: rd.dropLast) (hrd : rd ≠ []) (h : ¬ rs <+: rd) :
    renameNodes nodes rs rd q = nodes q := by
  have h1 : ¬ rd <+: q := by
    intro hp
    have := (hp.trans hq).length_le
    rw [List.length_dropLast] at this
    have : 0 < rd.length := List.length_pos.2 hrd
    omega
  have h2 : ¬ rs <+: q := fun hp => h ((hp.trans hq).trans (List.dropLast_prefix rd))
  simp [renameNodes, h1, h2]

theorem mkdirNodes_off {nodes : Loc → Option Node} {l p : Loc} (h : ¬ p <+: l) :
    mkdirNodes nodes l p = nodes p := by
  simp [mkdirNodes, h]

theorem mkdirNodes_on {nodes : Loc → Option Node} {l p : Loc} (h : p <+: l) :
    mkdirNodes nodes l p = some Node.dir := by
  simp [mkdirNodes, h]

/-- C4 amended: when src and dst resolve to different locations and
move(src, dst) succeeds on the model, afterwards nothing exists at the source
location, the destination holds the entry that was at the source before the
call, and the same move issued again fails with the not-found error. -/
theorem move_distinct_removes_source (workDir : String) (fuel : Nat)
    (readDir : String → World → Except Err (List FileInfo) × World) (src dst : String)
    (w w1 : World)
    (hne : components (getAbsPath workDir src) ≠ components (getAbsPath workDir dst))
    (hmv : move (posix workDir fuel readDir) src dst w = (Except.ok (), w1)) :
    w1.nodes (components (getAbsPath workDir src)) = none
    ∧ (∃ n, w.nodes (components (getAbsPath workDir src)) = some n
        ∧ w1.nodes (components (getAbsPath workDir dst)) = some n)
    ∧ (move (posix workDir fuel readDir) src dst w1).1 = Except.error Err.notExist := by
  simp only [move, posix, createDir] at hmv ⊢
  generalize components (getAbsPath workDir src) = rs at *
  generalize components (getAbsPath workDir dst) = rd at *
  split at hmv
  · cases hmv
  · rename_i u wa hmk
    split at hmv
    · cases hmv
    · rename_i u2 wb hrn
      cases hmv
      obtain ⟨hwa, -⟩ := osMkdirAll_ok hmk
      obtain ⟨⟨n, hn⟩, hp1, hp2, hpar, hwb⟩ := osRename_ok hne hrn
      have hrd : rd ≠ [] := by
        intro h0
        exact hp2 (h0 ▸ List.nil_prefix)
      have hsrc_above : ¬ rs <+: rd.dropLast :=
        fun hp => hp1 (hp.trans (List.dropLast_prefix rd))
      have hwa_rs : wa.nodes rs = w.nodes rs := by
        rw [hwa]; exact mkdirNodes_off hsrc_above
      have h1 : w1.nodes rs = none := by
        rw [hwb]; exact renameNodes_source hp2
      refine ⟨h1, ⟨n, ?_, ?_⟩, ?_⟩
      · rw [← hwa_rs]; exact hn
      · rw [hwb]; simp only [renameNodes_target]; exact hn
      · have hdirs : ∀ q, q <+: rd.dropLast → Node.isFile (w1.nodes q) = false := by
          intro q hq
          rw [hwb]
          simp only [renameNodes_above hq hrd hp1]
          rw [hwa]
          simp only [mkdirNodes_on hq]
          rfl
        rw [osMkdirAll_of_dirs hdirs]
        simp only
        have h2 : mkdirNodes w1.nodes rd.dropLast rs = none := by
          rw [mkdirNodes_off hsrc_above]; exact h1
        simp [World.osRename, h2]

/-- C4 amended, evaluated: a.txt moves to the new directory y as b.txt. -/
theorem move_distinct_removes_source_witness :
    (move demoStorage "a.txt" "y/b.txt" demoWorld).2.nodes ["w", "a.txt"] = none
    ∧ (∃ n, demoWorld.nodes ["w", "a.txt"] = some n
        ∧ (move demoStorage "a.txt" "y/b.txt" demoWorld).2.nodes ["w", "y", "b.txt"] = some n)
    ∧ (move demoStorage "a.txt" "y/b.txt" (move demoStorage "a.txt" "y/b.txt" demoWorld).2).1
        = Except.error Err.notExist :=
  move_distinct_removes_source "/w" 8 emptyReadDir "a.txt" "y/b.txt" demoWorld
    (move demoStorage "a.txt" "y/b.txt" demoWorld).2 (by decide) (by rfl)


/-! ### Reading on the model -/

theorem take_append_take_drop {α : Type} (l : List α) (a m : Nat) (ha : a ≤ m) :
    l.take a ++ (l.drop (l.take a).length).take (m - (l.take a).length) = l.take m := by
  by_cases h : a ≤ l.length
  · have hlen : (l.take a).length = a := by simp [h]
    rw [hlen, ← List.take_add]
    congr 1
    omega
  · have hl : l.take a = l := List.take_of_length_le (by omega)
    rw [hl]
    simp only [List.drop_length, List.take_nil, List.append_nil]
    exact (List.take_of_length_le (by omega)).symm

theorem Read_fd_data {w : World} {k : Nat} {hd : Handle} {data : List Byte} {len : Nat}
    (hk : w.handles.get? k = some hd) (hc : hd.closed = false)
    (hn : w.nodes hd.loc = some (Node.file data)) (hlen : 0 < len) (hpos : hd.pos < data.length) :
    w.Read (File.fd k) len
      = (((data.drop hd.pos).take len, none),
          { w with handles :=
              w.handles.set k { hd with pos := hd.pos + ((data.drop hd.pos).take len).length } }) := by
  have h1 : len ≠ 0 := by omega
  have h2 : ¬ data.length ≤ hd.pos := by omega
  simp only [World.Read, hk, hc, hn, h1, h2, if_false, Bool.false_eq_true]

theorem Read_fd_eof {w : World} {k : Nat} {hd : Handle} {data : List Byte} {len : Nat}
    (hk : w.handles.get? k = some hd) (hc : hd.closed = false)
    (hn : w.nodes hd.loc = some (Node.file data)) (hlen : 0 < len) (hpos : data.length ≤ hd.pos) :
    w.Read (File.fd k) len = (([], some Err.eof), w) := by
  have h1 : len ≠ 0 := by omega
  simp only [World.Read, hk, hc, hn, h1, hpos, if_false, if_true, Bool.false_eq_true]

theorem readAll_step_ok (X : (Except Err (List Byte) × Reader) × World) (buf more : List Byte)
    (h : X.1.1 = Except.ok more) :
    (match X with
      | ((Except.ok more, r), w) => ((Except.ok (buf ++ more), r), w)
      | ((Except.error e, r), w) => ((Except.error e, r), w)).1.1 = Except.ok (buf ++ more) := by
  obtain ⟨⟨res, r⟩, w⟩ := X
  simp only at h
  subst h
  rfl

theorem readAll_limit_file (data : List Byte) (k : Nat) (loc : Loc) (wr : Bool) (chunk : Nat)
    (hchunk : 0 < chunk) :
    ∀ (fuel : Nat) (w : World) (pos : Nat) (m : Int),
      w.handles.get? k = some { loc := loc, pos := pos, writable := wr, closed := false } →
      w.nodes loc = some (Node.file data) → data.length - pos < fuel →
      (readAll chunk fuel (Reader.limit (Reader.file (File.fd k)) m) w).1.1
        = Except.ok ((data.drop pos).take m.toNat) := by
  intro fuel
  induction fuel with
  | zero => intro w pos m _ _ hf; omega
  | succ fuel ih =>
    intro w pos m hk hn hf
    by_cases hm : m ≤ 0
    · have h0 : m.toNat = 0 := by omega
      simp only [readAll, Reader.Read, hm, if_true, h0, List.take_zero]
    · have hlen : 0 < (if (chunk : Int) > m then m.toNat else chunk) := by
        split <;> omega
      have hle : (if (chunk : Int) > m then m.toNat else chunk) ≤ m.toNat := by
        split <;> omega
      by_cases hpos : data.length ≤ pos
      · simp only [readAll, Reader.Read, hm, if_false, Read_fd_eof hk rfl hn hlen hpos]
        simp [List.drop_eq_nil_of_le hpos]
      · have hpos2 : pos < data.length := by omega
        have hrd := Read_fd_data hk rfl hn hlen hpos2
        simp only at hrd
        simp only [readAll, Reader.Read, hm, if_false, hrd]
        generalize (if (chunk : Int) > m then m.toNat else chunk) = a at *
        have hb : (List.take a (List.drop pos data)).length = min a (data.length - pos) := by
          simp
        have hklt : k < w.handles.length := by
          rcases Nat.lt_or_ge k w.handles.length with h | h
          · exact h
          · rw [List.get?_eq_none.2 h] at hk; cases hk
        have ih' := ih
          { w with
            handles := w.handles.set k
              { loc := loc, pos := pos + (List.take a (List.drop pos data)).length,
                writable := wr, closed := false } }
          (pos + (List.take a (List.drop pos data)).length)
          (m - ((List.take a (List.drop pos data)).length : Nat))
          (by simp [hklt]) hn (by omega)
        refine (readAll_step_ok _ _ _ ih').trans ?_
        congr 1
        have e1 : (m - ((List.take a (List.drop pos data)).length : Nat)).toNat
            = m.toNat - (List.take a (List.drop pos data)).length := by omega
        rw [e1, ← List.drop_drop]
        exact take_append_take_drop _ a m.toNat hle

theorem readAll_callback (chunk : Nat) :
    ∀ (fuel : Nat) (r : Reader) (calls : List Nat) (w : World),
      (readAll chunk fuel (Reader.callback r calls) w).1.1 = (readAll chunk fuel r w).1.1 := by
  intro fuel
  induction fuel with
  | zero => intro r calls w; rfl
  | succ fuel ih =>
    intro r calls w
    simp only [readAll, Reader.Read]
    rcases hr : r.Read chunk w with ⟨⟨⟨buf, er⟩, r1⟩, w1⟩
    cases er with
    | none =>
      simp only
      have h := ih r1 (calls ++ [buf.length]) w1
      rcases h1 : readAll chunk fuel (Reader.callback r1 (calls ++ [buf.length])) w1
        with ⟨⟨res1, ra⟩, wa⟩
      rcases h2 : readAll chunk fuel r1 w1 with ⟨⟨res2, rb⟩, wb⟩
      rw [h1, h2] at h
      simp only at h
      subst h
      cases res1 <;> rfl
    | some e =>
      cases e <;> rfl

/-- C1 as stated fails: the offset 2^63 - 1 is not negative, yet read of the
file a.txt with this offset returns the error of the seek, not a stream that
yields no bytes: the offset is beyond what the filesystem accepts. -/
theorem read_offset_beyond_seek_limit_fails :
    (0 : Int) ≤ 2 ^ 63 - 1
    ∧ demoWorld.nodes (components (getAbsPath "/w" "a.txt")) = some (Node.file [1, 2, 3])
    ∧ (read posixOS demoStorage "a.txt"
        { HasOffset := true, Offset := 2 ^ 63 - 1, HasSize := true, Size := 1,
          HasReadCallbackFunc := false } demoWorld).1 = Except.error Err.invalid
    ∧ drain 4 4
        (read posixOS demoStorage "a.txt"
          { HasOffset := true, Offset := 2 ^ 63 - 1, HasSize := true, Size := 1,
            HasReadCallbackFunc := false } demoWorld) ≠ Except.ok [] :=
  ⟨by decide, by decide, by rfl, by
    have h : drain 4 4
        (read posixOS demoStorage "a.txt"
          { HasOffset := true, Offset := 2 ^ 63 - 1, HasSize := true, Size := 1,
            HasReadCallbackFunc := false } demoWorld) = Except.error Err.invalid := by rfl
    rw [h]
    exact fun hc => Except.noConfusion hc⟩

/-- C1 amended: on the model, for a path other than "-" that names a file with
content data of length L, every size N ≥ 0 (an int64) and every offset O ≥ 0:
when O is at most the largest offset the filesystem accepts in a seek, read
returns a stream, and draining it (with any positive read size and enough
reads) yields the bytes of data at positions from O up to, not including,
O + min(N, L - O), in order, and nothing when O ≥ L; when O is beyond that
largest offset, read returns the error of the seek and no stream. -/
theorem read_offset_size (workDir : String) (fuel : Nat)
    (readDir : String → World → Except Err (List FileInfo) × World)
    (path : String) (w : World) (data : List Byte) (O N : Int) (cb : Bool)
    (chunk reads : Nat)
    (hp : path ≠ "-")
    (hfile : w.nodes (components (getAbsPath workDir path)) = some (Node.file data))
    (hO : 0 ≤ O) (_hN : 0 ≤ N) (_hN64 : N < 2 ^ 63) (hchunk : 0 < chunk)
    (hreads : data.length < reads) :
    (O ≤ (w.maxOffset : Int) →
      drain chunk reads
          (read posixOS (posix workDir fuel readDir) path
            { HasOffset := true, Offset := O, HasSize := true, Size := N,
              HasReadCallbackFunc := cb } w)
        = Except.ok ((data.drop O.toNat).take N.toNat)
      ∧ ((data.drop O.toNat).take N.toNat).length = min N.toNat (data.length - O.toNat)
      ∧ ((data.length : Int) ≤ O → (data.drop O.toNat).take N.toNat = []))
    ∧ ((w.maxOffset : Int) < O →
      (read posixOS (posix workDir fuel readDir) path
          { HasOffset := true, Offset := O, HasSize := true, Size := N,
            HasReadCallbackFunc := cb } w).1 = Except.error Err.invalid) := by
  have hseek : ¬ O < 0 := by omega
  have hget : (w.handles ++
      [({ loc := components (getAbsPath workDir path), pos := 0, writable := false,
          closed := false } : Handle)]).get? w.handles.length
      = some { loc := components (getAbsPath workDir path), pos := 0, writable := false,
               closed := false } := by
    simp
  refine ⟨fun hmax => ⟨?_, by simp, ?_⟩, fun hbig => ?_⟩
  · have hmax2 : ¬ O > (w.maxOffset : Int) := by omega
    have key := readAll_limit_file data w.handles.length (components (getAbsPath workDir path))
      false chunk hchunk reads
      { w with
        handles := (w.handles ++
          [({ loc := components (getAbsPath workDir path), pos := 0, writable := false,
              closed := false } : Handle)]).set w.handles.length
            { loc := components (getAbsPath workDir path), pos := O.toNat, writable := false,
              closed := false } }
      O.toNat N (by simp) hfile (by omega)
    simp only [read, hp, if_false, posix, World.osOpen, hfile, posixOS, World.Seek, hget,
      Bool.false_eq_true, hseek, hmax2, if_true, drain]
    cases cb
    · simpa using key
    · simp only [if_true]
      rw [readAll_callback]
      simpa using key
  · intro hL
    rw [List.drop_eq_nil_of_le (by omega)]
    exact List.take_nil
  · have hbig2 : O > (w.maxOffset : Int) := hbig
    simp only [read, hp, if_false, posix, World.osOpen, hfile, posixOS, World.Seek, hget,
      Bool.false_eq_true, hseek, hbig2, if_true]

/-- C1 amended, evaluated: offset 1 and size 1 on the file a.txt of content
1, 2, 3 yield the byte 2. -/
theorem read_offset_size_witness :
    drain 4 4
        (read posixOS (posix "/w" 8 emptyReadDir) "a.txt"
          { HasOffset := true, Offset := 1, HasSize := true, Size := 1,
            HasReadCallbackFunc := true } demoWorld)
      = Except.ok ((([1, 2, 3] : List Byte).drop (1 : Int).toNat).take (1 : Int).toNat)
    ∧ ((([1, 2, 3] : List Byte).drop (1 : Int).toNat).take (1 : Int).toNat).length
        = min (1 : Int).toNat (([1, 2, 3] : List Byte).length - (1 : Int).toNat)
    ∧ (((([1, 2, 3] : List Byte).length : Nat) : Int) ≤ 1 →
        (([1, 2, 3] : List Byte).drop (1 : Int).toNat).take (1 : Int).toNat = []) :=
  (read_offset_size "/w" 8 emptyReadDir "a.txt" demoWorld [1, 2, 3] 1 1 true 4 4
    (by decide) (by decide) (by decide) (by decide) (by decide) (by decide) (by decide)).1
    (by decide)


/-! ### Writing on the model -/

theorem Src_read {r : Reader} {rest : List Byte} (h : Src r rest) (len : Nat) (w : World) :
    ∃ r1, Src r1 (rest.drop len)
      ∧ r.Read len w
          = (((if rest = [] then ([], some Err.eof) else (rest.take len, none)), r1), w) := by
  induction h with
  | bytes rest =>
    by_cases h0 : rest = []
    · refine ⟨Reader.bytes rest, ?_, ?_⟩
      · subst h0; simpa using Src.bytes []
      · simp [Reader.Read, h0]
    · exact ⟨Reader.bytes (rest.drop len), Src.bytes _, by simp [Reader.Read, h0]⟩
  | @callback r0 rest0 calls _ ih =>
    obtain ⟨r1, hs, hr⟩ := ih
    have hcb : (Reader.callback r0 calls).Read len w
        = (((if rest0 = [] then ([], some Err.eof) else (rest0.take len, none)),
            Reader.callback r1
              (calls ++ [(if rest0 = [] then (([], some Err.eof) : List Byte × Option Err)
                          else (rest0.take len, none)).1.length])), w) := by
      simp only [Reader.Read, hr]
    exact ⟨_, Src.callback _ hs, hcb⟩

theorem take_append_take_drop2 {α : Type} (l : List α) (a m : Nat) (ha : a ≤ m) :
    l.take a ++ (l.drop a).take (m - (l.take a).length) = l.take m := by
  by_cases h : a ≤ l.length
  · have hlen : (l.take a).length = a := by simp [h]
    rw [hlen, ← List.take_add]
    congr 1
    omega
  · have hl : l.take a = l := List.take_of_length_le (by omega)
    rw [hl, List.drop_eq_nil_of_le (by omega)]
    simp only [List.take_nil, List.append_nil]
    exact (List.take_of_length_le (by omega)).symm

theorem writeAt_end (data bytes : List Byte) : writeAt data data.length bytes = data ++ bytes := by
  simp [writeAt]

theorem Write_fd {w : World} {k : Nat} {loc : Loc} {data bytes : List Byte}
    (hk : w.handles.get? k
      = some { loc := loc, pos := data.length, writable := true, closed := false })
    (hn : w.nodes loc = some (Node.file data)) :
    w.Write (File.fd k) bytes
      = ((bytes.length, none),
          { (w.setNode loc (some (Node.file (data ++ bytes)))) with
            handles := w.handles.set k
              { loc := loc, pos := data.length + bytes.length, writable := true,
                closed := false } }) := by
  simp only [World.Write, hk, hn, writeAt_end, Bool.false_eq_true, if_false, Bool.not_true]

theorem copyLoop_limit_src (k : Nat) (loc : Loc) (bufLen : Nat) (hbuf : 0 < bufLen) :
    ∀ (fuel : Nat) (w : World) (r : Reader) (rest data : List Byte) (m written : Int),
      Src r rest →
      w.handles.get? k
        = some { loc := loc, pos := data.length, writable := true, closed := false } →
      w.nodes loc = some (Node.file data) →
      min m.toNat rest.length < fuel →
      (copyLoop bufLen fuel (File.fd k) (Reader.limit r m) written w).1
          = (written + (min m.toNat rest.length : Nat), none)
        ∧ (copyLoop bufLen fuel (File.fd k) (Reader.limit r m) written w).2.nodes loc
          = some (Node.file (data ++ rest.take m.toNat)) := by
  intro fuel
  induction fuel with
  | zero => intro w r rest data m written _ _ _ hf; omega
  | succ fuel ih =>
    intro w r rest data m written hs hk hn hf
    by_cases hm : m ≤ 0
    · have h0 : m.toNat = 0 := by omega
      simp [copyLoop, Reader.Read, hm, h0, hn]
    · simp only [copyLoop, Reader.Read, hm, if_false]
      obtain ⟨r1, hs1, hr⟩ :=
        Src_read hs (if (bufLen : Int) > m then m.toNat else bufLen) w
      have hlen : 0 < (if (bufLen : Int) > m then m.toNat else bufLen) := by
        split <;> omega
      have hle : (if (bufLen : Int) > m then m.toNat else bufLen) ≤ m.toNat := by
        split <;> omega
      generalize (if (bufLen : Int) > m then m.toNat else bufLen) = a at *
      by_cases hrest : rest = []
      · subst hrest
        simp only [hr, if_true]
        simp [hn]
      · have hrl : 0 < rest.length := List.length_pos.2 hrest
        have hb : (rest.take a).length = min a rest.length := by simp
        have hklt : k < w.handles.length := by
          rcases Nat.lt_or_ge k w.handles.length with h | h
          · exact h
          · rw [List.get?_eq_none.2 h] at hk; cases hk
        have hwr := @Write_fd _ _ _ _ (rest.take a) hk hn
        have hpos : (rest.take a).length > 0 := by omega
        have ih' := ih
          { (w.setNode loc (some (Node.file (data ++ rest.take a)))) with
            handles := w.handles.set k
              { loc := loc, pos := data.length + (rest.take a).length, writable := true,
                closed := false } }
          r1 (rest.drop a) (data ++ rest.take a) (m - ((rest.take a).length : Nat))
          (written + ((rest.take a).length : Nat)) hs1
          (by simp [hklt]) (by simp [World.setNode])
          (by simp only [List.length_drop]; omega)
        simp only [hr, hrest, if_false, hwr, hpos, if_true, ne_eq, not_true_eq_false]
        refine ⟨ih'.1.trans ?_, ih'.2.trans ?_⟩
        · congr 1
          simp only [List.length_drop]
          omega
        · have e1 : (m - ((rest.take a).length : Nat)).toNat
              = m.toNat - (rest.take a).length := by omega
          rw [e1, List.append_assoc, take_append_take_drop2 _ a m.toNat hle]

theorem take_append_drop_take {α : Type} (l : List α) (a : Nat) :
    l.take a ++ l.drop (l.take a).length = l := by
  by_cases h : a ≤ l.length
  · have hlen : (l.take a).length = a := by simp [h]
    rw [hlen, List.take_append_drop]
  · have hl : l.take a = l := List.take_of_length_le (by omega)
    rw [hl]
    simp

theorem readAll_file (data : List Byte) (k : Nat) (loc : Loc) (wr : Bool) (chunk : Nat)
    (hchunk : 0 < chunk) :
    ∀ (fuel : Nat) (w : World) (pos : Nat),
      w.handles.get? k = some { loc := loc, pos := pos, writable := wr, closed := false } →
      w.nodes loc = some (Node.file data) → data.length - pos < fuel →
      (readAll chunk fuel (Reader.file (File.fd k)) w).1.1 = Except.ok (data.drop pos) := by
  intro fuel
  induction fuel with
  | zero => intro w pos _ _ hf; omega
  | succ fuel ih =>
    intro w pos hk hn hf
    by_cases hpos : data.length ≤ pos
    · simp only [readAll, Reader.Read, Read_fd_eof hk rfl hn hchunk hpos]
      simp [List.drop_eq_nil_of_le hpos]
    · have hpos2 : pos < data.length := by omega
      have hrd := Read_fd_data hk rfl hn hchunk hpos2
      simp only at hrd
      simp only [readAll, Reader.Read, hrd]
      have hb : (List.take chunk (List.drop pos data)).length = min chunk (data.length - pos) := by
        simp
      have hklt : k < w.handles.length := by
        rcases Nat.lt_or_ge k w.handles.length with h | h
        · exact h
        · rw [List.get?_eq_none.2 h] at hk; cases hk
      have ih' := ih
        { w with
          handles := w.handles.set k
            { loc := loc, pos := pos + (List.take chunk (List.drop pos data)).length,
              writable := wr, closed := false } }
        (pos + (List.take chunk (List.drop pos data)).length)
        (by simp [hklt]) hn (by omega)
      refine (readAll_step_ok _ _ _ ih').trans ?_
      congr 1
      rw [← List.drop_drop]
      exact take_append_drop_take _ chunk

theorem osCreate_ok {w wb : World} {l : Loc} {f : File}
    (h : w.osCreate l = (Except.ok f, wb)) :
    f = File.fd w.handles.length
      ∧ wb.handles = w.handles ++ [{ loc := l, pos := 0, writable := true, closed := false }]
      ∧ wb.nodes l = some (Node.file []) := by
  unfold World.osCreate at h
  split at h
  · cases h
  · split at h
    · cases h
    · cases h
    · cases h
      exact ⟨rfl, rfl, by simp [World.setNode]⟩

theorem ioCopyN_src (fuel : Nat) (k : Nat) (loc : Loc) (w : World) (r : Reader)
    (S : List Byte) (N : Int) (hs : Src r S) (hN : 0 ≤ N)
    (hk : w.handles.get? k = some { loc := loc, pos := 0, writable := true, closed := false })
    (hn : w.nodes loc = some (Node.file [])) (hfuel : S.length < fuel) :
    ((ioCopyN fuel (File.fd k) r N w).1.2 = (if N ≤ S.length then none else some Err.eof))
      ∧ (ioCopyN fuel (File.fd k) r N w).2.nodes loc = some (Node.file (S.take N.toNat)) := by
  have hsize : 0 < (if N < 1 then 1 else if N < 32 * 1024 then N.toNat else 32 * 1024) := by
    split
    · omega
    · split <;> omega
  have key := copyLoop_limit_src k loc _ hsize fuel w r S [] N 0 hs hk hn (by omega)
  simp only [ioCopyN]
  rcases hcl : copyLoop (if N < 1 then 1 else if N < 32 * 1024 then N.toNat else 32 * 1024)
    fuel (File.fd k) (Reader.limit r N) 0 w with ⟨⟨wr, er⟩, w2⟩
  rw [hcl] at key
  obtain ⟨h1, h2⟩ := key
  simp only [Prod.mk.injEq, List.nil_append] at h1 h2
  obtain ⟨hwr, her⟩ := h1
  subst her
  simp only
  by_cases hle : N ≤ S.length
  · have : wr = N := by rw [hwr]; omega
    simp [this, hle, h2]
  · have hne : ¬ wr = N := by rw [hwr]; omega
    have hlt : wr < N := by rw [hwr]; omega
    simp [hne, hlt, hle, h2]


/-- C2 amended: on the model, for a path other than "-", a source that
delivers the bytes S and a size bound N ≥ 0: when the directory creation and
the file creation for the path succeed and S has at least N bytes, write with
size N succeeds and a following read of the path yields the first N bytes of
S, exactly N bytes; when they succeed and S has fewer than N bytes, write
returns the error EOF; and whenever S has fewer than N bytes write returns an
error. -/
theorem write_size_then_read (workDir : String) (fuel : Nat)
    (readDir : String → World → Except Err (List FileInfo) × World)
    (path : String) (w : World) (S : List Byte) (N : Int) (cb : Bool) (chunk reads : Nat)
    (hp : path ≠ "-") (hN : 0 ≤ N) (hfuel : S.length < fuel)
    (hchunk : 0 < chunk) (hreads : S.length < reads) :
    (∀ wa f wb, createDir workDir path w = (Except.ok (), wa) →
        wa.osCreate (components (getAbsPath workDir path)) = (Except.ok f, wb) →
        (N ≤ S.length →
          (write (posix workDir fuel readDir) path (Reader.bytes S)
              { HasSize := true, Size := N, HasReadCallbackFunc := cb } w).1 = Except.ok ()
          ∧ drain chunk reads
              (read posixOS (posix workDir fuel readDir) path
                { HasOffset := false, Offset := 0, HasSize := false, Size := 0,
                  HasReadCallbackFunc := false }
                (write (posix workDir fuel readDir) path (Reader.bytes S)
                  { HasSize := true, Size := N, HasReadCallbackFunc := cb } w).2)
              = Except.ok (S.take N.toNat)
          ∧ (S.take N.toNat).length = N.toNat)
        ∧ ((S.length : Int) < N →
          (write (posix workDir fuel readDir) path (Reader.bytes S)
              { HasSize := true, Size := N, HasReadCallbackFunc := cb } w).1
            = Except.error Err.eof))
    ∧ ((S.length : Int) < N →
        ∃ e, (write (posix workDir fuel readDir) path (Reader.bytes S)
              { HasSize := true, Size := N, HasReadCallbackFunc := cb } w).1
            = Except.error e) := by
  have hsrc : Src (if cb = true then Reader.callback (Reader.bytes S) [] else Reader.bytes S) S := by
    cases cb
    · exact Src.bytes S
    · exact Src.callback [] (Src.bytes S)
  have main : ∀ wa f wb, createDir workDir path w = (Except.ok (), wa) →
      wa.osCreate (components (getAbsPath workDir path)) = (Except.ok f, wb) →
      (write (posix workDir fuel readDir) path (Reader.bytes S)
          { HasSize := true, Size := N, HasReadCallbackFunc := cb } w).1
        = (if N ≤ S.length then Except.ok () else Except.error Err.eof)
      ∧ (write (posix workDir fuel readDir) path (Reader.bytes S)
          { HasSize := true, Size := N, HasReadCallbackFunc := cb } w).2.nodes
            (components (getAbsPath workDir path)) = some (Node.file (S.take N.toNat)) := by
    intro wa f wb hdir hcreate
    obtain ⟨hf, hh, hn⟩ := osCreate_ok hcreate
    subst hf
    have hk : wb.handles.get? wa.handles.length
        = some { loc := components (getAbsPath workDir path), pos := 0, writable := true,
                 closed := false } := by
      rw [hh]; simp
    obtain ⟨h1, h2⟩ := ioCopyN_src fuel wa.handles.length _ wb _ S N hsrc hN hk hn hfuel
    simp only [write, hp, if_false, posix, hdir, hcreate, if_true]
    rcases hc : ioCopyN fuel (File.fd wa.handles.length)
      (if cb = true then Reader.callback (Reader.bytes S) [] else Reader.bytes S) N wb
      with ⟨⟨n, er⟩, w2⟩
    rw [hc] at h1 h2
    simp only at h1 h2
    subst h1
    by_cases hle : N ≤ S.length
    · simp [hle, h2]
    · simp [hle, h2]
  refine ⟨?_, ?_⟩
  · intro wa f wb hdir hcreate
    obtain ⟨h1, h2⟩ := main wa f wb hdir hcreate
    refine ⟨?_, ?_⟩
    · intro hle
      refine ⟨by rw [h1, if_pos hle], ?_, by simp; omega⟩
      have key := readAll_file (S.take N.toNat)
        (write (posix workDir fuel readDir) path (Reader.bytes S)
          { HasSize := true, Size := N, HasReadCallbackFunc := cb } w).2.handles.length
        (components (getAbsPath workDir path)) false chunk hchunk reads
        { (write (posix workDir fuel readDir) path (Reader.bytes S)
            { HasSize := true, Size := N, HasReadCallbackFunc := cb } w).2 with
          handles := (write (posix workDir fuel readDir) path (Reader.bytes S)
            { HasSize := true, Size := N, HasReadCallbackFunc := cb } w).2.handles ++
              [{ loc := components (getAbsPath workDir path), pos := 0, writable := false,
                 closed := false }] }
        0 (by simp) h2 (by simp; omega)
      generalize (write (posix workDir fuel readDir) path (Reader.bytes S)
          { HasSize := true, Size := N, HasReadCallbackFunc := cb } w).2 = w2 at *
      simp only [read, hp, if_false, posix, World.osOpen, h2, drain, Bool.false_eq_true]
      simpa using key
    · intro hlt
      rw [h1, if_neg (by omega)]
  · intro hlt
    rcases hdir : createDir workDir path w with ⟨e | u, wa⟩
    · exact ⟨e, by simp only [write, hp, if_false, posix, hdir]⟩
    · rcases hcreate : wa.osCreate (components (getAbsPath workDir path)) with ⟨e | f, wb⟩
      · exact ⟨e, by simp only [write, hp, if_false, posix, hdir, hcreate]⟩
      · exact ⟨Err.eof, by rw [(main wa f wb hdir hcreate).1, if_neg (by omega)]⟩

/-- C2 amended, evaluated: writing 2 of the bytes 7, 8, 9 to n.txt succeeds and
reading n.txt back gives 7, 8. -/
theorem write_size_then_read_witness :
    (write (posix "/w" 8 emptyReadDir) "n.txt" (Reader.bytes [7, 8, 9])
        { HasSize := true, Size := 2, HasReadCallbackFunc := true } demoWorld).1 = Except.ok ()
    ∧ drain 4 4
        (read posixOS (posix "/w" 8 emptyReadDir) "n.txt"
          { HasOffset := false, Offset := 0, HasSize := false, Size := 0,
            HasReadCallbackFunc := false }
          (write (posix "/w" 8 emptyReadDir) "n.txt" (Reader.bytes [7, 8, 9])
            { HasSize := true, Size := 2, HasReadCallbackFunc := true } demoWorld).2)
        = Except.ok (([7, 8, 9] : List Byte).take (2 : Int).toNat)
    ∧ (([7, 8, 9] : List Byte).take (2 : Int).toNat).length = (2 : Int).toNat :=
  ((write_size_then_read "/w" 8 emptyReadDir "n.txt" demoWorld [7, 8, 9] 2 true 4 4
      (by decide) (by decide) (by decide) (by decide) (by decide)).1
    (createDir "/w" "n.txt" demoWorld).2 (File.fd 0)
    ((createDir "/w" "n.txt" demoWorld).2.osCreate (components (getAbsPath "/w" "n.txt"))).2
    (by rfl) (by rfl)).1 (by decide)

end Fs
